import Mathlib

/-!
Verification of the date-mcp server (`src/date_mcp/server.py`).

The development shallowly embeds the location table, the environment-variable
override parsing (module level lines 52-58), the timezone resolver
`get_timezone_from_location` (lines 61-97) and the tool dispatcher `call_tool`
(lines 170-206) of the Python source.

Python strings are modelled as Lean `String`; the string-manipulation
primitives the server uses (`str.strip`, `str.split`, `str.lower`,
`str.upper`, `str.replace`, `"," in s`) are defined here over the underlying
character lists, mirroring Python's per-character semantics (ASCII case
mapping, as the source only manipulates such data).  A Python `dict` is
modelled as an insertion-ordered association list: assignment to an existing
key overwrites the value in place, assignment to a fresh key appends, and
iteration order is list order, exactly as for Python dictionaries.
-/

namespace DateMcp

/-- Whitespace test used by Python's `str.strip` (modelled by
`Char.isWhitespace`, which covers the whitespace characters occurring in
this server's data). -/
def ws (c : Char) : Bool := c.isWhitespace

/-- Model of Python `str.lstrip` on character lists. -/
def lstripL (l : List Char) : List Char := l.dropWhile ws

/-- Model of Python `str.rstrip` on character lists. -/
def rstripL (l : List Char) : List Char := (l.reverse.dropWhile ws).reverse

/-- Model of Python `str.strip` on character lists. -/
def stripL (l : List Char) : List Char := lstripL (rstripL l)

/-- Model of Python `s.split(sep)` for a one-character separator, on
character lists: `"a,b".split(",") = ["a","b"]`, `"".split(",") = [""]`. -/
def splitCharL (c : Char) : List Char → List (List Char)
  | [] => [[]]
  | x :: xs =>
    match splitCharL c xs, decide (x = c) with
    | r, true => [] :: r
    | [], false => [[x]]
    | y :: ys, false => (x :: y) :: ys

/-- Model of Python `s.split(sep, 1)` at the first occurrence of `c`:
the pair of the part before the first `c` and the part after it. -/
def splitOnceL (c : Char) (l : List Char) : List Char × List Char :=
  (l.takeWhile (· != c), (l.dropWhile (· != c)).tail)

/-- Model of Python `str.strip` on strings. -/
def pyStrip (s : String) : String := ⟨stripL s.data⟩

/-- Model of Python `str.lower` (per-character ASCII case mapping, which is
what `str.lower` performs on the latin data this server handles). -/
def pyLower (s : String) : String := ⟨s.data.map Char.toLower⟩

/-- Model of Python `str.upper`. -/
def pyUpper (s : String) : String := ⟨s.data.map Char.toUpper⟩

/-- The location table: a Python `dict` modelled as an insertion-ordered
association list from location name to IANA timezone identifier. -/
abbrev Table := List (String × String)

/-- Model of Python `d[k]` / `k in d`: the value at the first entry whose
key equals `k`, or `none` when no entry has key `k`. -/
def dictGet (m : Table) (k : String) : Option String :=
  (m.find? (fun p => p.1 == k)).map (fun p => p.2)

/-- Model of Python `d[k] = v`: overwrite the value in place when the key is
present (keeping its insertion position), append a new entry otherwise. -/
def dictInsert (m : Table) (k v : String) : Table :=
  if k ∈ m.map Prod.fst then
    m.map (fun p => if p.1 = k then (k, v) else p)
  else
    m ++ [(k, v)]

/-- The built-in base location map (`LOCATION_MAP`, server.py lines 18-42),
in the source's insertion order. -/
def LOCATION_MAP : Table :=
  [ ("New York", "America/New_York"),
    ("Chicago", "America/Chicago"),
    ("Denver", "America/Denver"),
    ("Los Angeles", "America/Los_Angeles"),
    ("London", "Europe/London"),
    ("Paris", "Europe/Paris"),
    ("Berlin", "Europe/Berlin"),
    ("Tokyo", "Asia/Tokyo"),
    ("Sydney", "Australia/Sydney"),
    ("Shanghai", "Asia/Shanghai"),
    ("Singapore", "Asia/Singapore"),
    ("Dubai", "Asia/Dubai"),
    ("Hong Kong", "Asia/Hong_Kong"),
    ("Toronto", "America/Toronto"),
    ("São Paulo", "America/Sao_Paulo"),
    ("Mexico City", "America/Mexico_City"),
    ("Mumbai", "Asia/Kolkata"),
    ("Bangkok", "Asia/Bangkok"),
    ("Istanbul", "Europe/Istanbul"),
    ("Moscow", "Europe/Moscow"),
    ("Cairo", "Africa/Cairo"),
    ("Lagos", "Africa/Lagos"),
    ("Nairobi", "Africa/Nairobi") ]

/-- Processing of one comma-separated override entry (server.py lines 55-58):
strip the entry, skip it unless it contains `'='`, otherwise split at the
first `'='` and store the stripped city / stripped timezone pair. -/
def apply_entry (m : Table) (e : List Char) : Table :=
  let t := stripL e
  if '=' ∈ t then
    dictInsert m ⟨stripL (splitOnceL '=' t).1⟩ ⟨stripL (splitOnceL '=' t).2⟩
  else
    m

/-- The override loop (server.py lines 52-58): split the configuration
string on commas and process each entry in order.  (The module-level guard
`if _env_locations:` only short-circuits the empty string, whose single
empty entry contains no `'='` and is skipped anyway, so the result is the
same.) -/
def apply_overrides (m : Table) (cfg : String) : Table :=
  (splitCharL ',' cfg.data).foldl apply_entry m

/-- Modelled from the spec: processing of one override entry as §4.1 words
it — "entries with no `=` are ignored", otherwise the pair is split and
"each side trimmed of surrounding whitespace" and stored, overwriting any
entry with the identical name. -/
def apply_entry_spec (m : Table) (e : List Char) : Table :=
  if '=' ∈ e then
    dictInsert m ⟨stripL (splitOnceL '=' e).1⟩ ⟨stripL (splitOnceL '=' e).2⟩
  else
    m

/-- Modelled from the spec: `apply_overrides` as §4.1 words it — split the
configuration string on commas and fold the per-entry processing. -/
def apply_overrides_spec (m : Table) (cfg : String) : Table :=
  (splitCharL ',' cfg.data).foldl apply_entry_spec m

/-- The structured resolution failure (spec §3 `ResolutionFailure`): the
queried location, the sample of known locations embedded in the message
(`sample_cities`, server.py line 76), and the full remediation message the
raised `ValueError` carries. -/
structure ResolutionFailure where
  queried : String
  sample : List String
  remediation : String
deriving DecidableEq

instance {ε α : Type} [DecidableEq ε] [DecidableEq α] : DecidableEq (Except ε α) :=
  fun x y =>
    match x, y with
    | .ok a, .ok b => decidable_of_iff (a = b) (by simp)
    | .ok _, .error _ => isFalse (fun h => Except.noConfusion h)
    | .error _, .ok _ => isFalse (fun h => Except.noConfusion h)
    | .error e, .error f => decidable_of_iff (e = f) (by simp)

/-- Model of `", ".join(l)` (server.py line 77). -/
def joinCommaSpace : List String → String
  | [] => ""
  | [x] => x
  | x :: y :: r => x ++ ", " ++ joinCommaSpace (y :: r)

/-- Fragment of the error message between the first and second occurrence
of the queried location (server.py lines 80-81), with the sample list
spliced in. -/
def msg_mid (m : Table) : String :=
  "'. Available locations include: " ++
    joinCommaSpace ((m.map Prod.fst).take 5) ++
    ", and more.\n\nTo add '"

/-- Fragment of the error message between the second and third occurrence
of the queried location: the configuration preamble and the opening of the
mcp.json example block (server.py lines 81-89).  Literal braces are written
with character escapes. -/
def msg_block : String :=
  "', configure the DATE_MCP_LOCATIONS environment variable in your mcp.json:\n\n" ++
  "\x7b\n  \"servers\": \x7b\n    \"date-mcp\": \x7b\n      \"type\": \"stdio\",\n" ++
  "      \"command\": \"uvx\",\n      \"args\": [\"date-mcp\"],\n      \"env\": \x7b\n" ++
  "        \"DATE_MCP_LOCATIONS\": \""

/-- Fragment of the error message after the `<IANA_TIMEZONE>` placeholder:
the closing of the example block and the single-location example
(server.py lines 89-94). -/
def msg_tail : String :=
  "\"\n      \x7d\n    \x7d\n  \x7d\n\x7d\n\n" ++
  "For example, to add Vienna: DATE_MCP_LOCATIONS=\"Vienna=Europe/Vienna\"\n" ++
  "For multiple locations: DATE_MCP_LOCATIONS=\""

/-- The full remediation message (`error_msg`, server.py lines 79-96). -/
def error_msg (m : Table) (location : String) : String :=
  "Unknown location: '" ++
    (location ++
      (msg_mid m ++
        (location ++
          (msg_block ++
            (location ++
              ("=<IANA_TIMEZONE>" ++
                (msg_tail ++
                  ("Vienna=Europe/Vienna,Sydney=Australia/Sydney" ++ "\""))))))))

/-- The resolver `get_timezone_from_location` (server.py lines 61-97):
exact dictionary lookup first, then a case-insensitive scan in table
iteration order, and otherwise the structured not-found failure. -/
def get_timezone_from_location (m : Table) (location : String) :
    Except ResolutionFailure String :=
  match dictGet m location with
  | some tz => .ok tz
  | none =>
    match m.find? (fun p => pyLower p.1 == pyLower location) with
    | some p => .ok p.2
    | none =>
      .error ⟨location, (m.map Prod.fst).take 5, error_msg m location⟩

/-- Model of Python `"\n".join(l)` (server.py line 203). -/
def joinNewline : List String → String
  | [] => ""
  | [x] => x
  | x :: y :: r => x ++ "\n" ++ joinNewline (y :: r)

/-- Model of Python `sorted(LOCATION_MAP.keys())` (server.py line 202):
the table's keys sorted in the code-point lexicographic order `String`
comparison performs (`String.lt` is lexicographic comparison of the
character lists). -/
def sortedNames (m : Table) : List String :=
  List.insertionSort (· ≤ ·) (m.map Prod.fst)

/-- The text block produced by `list_available_locations`
(server.py lines 200-204). -/
def list_available_text (m : Table) : String :=
  joinNewline (sortedNames m)

/-- A `datetime` value as the formatting code observes it: the numeric
components of the instant the host clock returned. -/
structure PyDateTime where
  year : Nat
  month : Nat
  day : Nat
  hour : Nat
  minute : Nat
  second : Nat
  microsecond : Nat

/-- The ten decimal digit characters. -/
def decimalDigits : List Char := ['0', '1', '2', '3', '4', '5', '6', '7', '8', '9']

/-- The decimal digit character for `d % 10`. -/
def digitChar (d : Nat) : Char := decimalDigits.getD (d % 10) '0'

/-- The decimal digit characters of `n`, most significant first. -/
def natDigits (n : Nat) : List Char :=
  if n < 10 then [digitChar n]
  else natDigits (n / 10) ++ [digitChar (n % 10)]
termination_by n
decreasing_by exact Nat.div_lt_self (by omega) (by omega)

/-- Zero-padded decimal rendering of `n` to width `w`, as `%0wd` formats
the `datetime` components. -/
def padDigits (w n : Nat) : List Char :=
  List.replicate (w - (natDigits n).length) '0' ++ natDigits n

/-- The date-time body of `datetime.isoformat()` for a UTC-aware datetime
(the value at server.py line 186): `YYYY-MM-DDTHH:MM:SS`, with the
microseconds exactly when they are nonzero. -/
def isoBodyUtc (t : PyDateTime) : List Char :=
  padDigits 4 t.year ++ ['-'] ++ padDigits 2 t.month ++ ['-'] ++ padDigits 2 t.day ++
  ['T'] ++ padDigits 2 t.hour ++ [':'] ++ padDigits 2 t.minute ++ [':'] ++
  padDigits 2 t.second ++
  (if t.microsecond = 0 then [] else ['.'] ++ padDigits 6 t.microsecond)

/-- Model of `datetime.isoformat()` for a UTC-aware datetime: the body
followed by the `+00:00` offset. -/
def isoCharsUtc (t : PyDateTime) : List Char :=
  isoBodyUtc t ++ ['+', '0', '0', ':', '0', '0']

/-- Model of Python `s.replace(p, r)` on character lists: replace every
non-overlapping occurrence of `p`, scanning left to right. -/
def replaceList (p r : List Char) : List Char → List Char
  | [] => []
  | c :: cs =>
    if p ≠ [] ∧ p.isPrefixOf (c :: cs) then
      r ++ replaceList p r (cs.drop (p.length - 1))
    else
      c :: replaceList p r cs
termination_by l => l.length
decreasing_by
  · simp only [List.length_drop, List.length_cons]
    omega
  · simp only [List.length_cons]
    omega

/-- The text produced by the `current_time_utc` tool (server.py
lines 184-188): the UTC isoformat with `"+00:00"` replaced by `"Z"`. -/
def current_time_utc_text (t : PyDateTime) : String :=
  ⟨replaceList ("+00:00".data) ("Z".data) (isoCharsUtc t)⟩

/-- The host clock and timezone facility, which the spec treats as an
external collaborator: the values the `datetime` calls in the handlers
return at call time.  `zoneNowIso` is the isoformat of the current instant
in a given IANA timezone (`datetime.now(ZoneInfo(tz)).isoformat()`). -/
structure HostClock where
  dayName : String
  isoDate : String
  localNowIso : String
  utcNow : PyDateTime
  zoneNowIso : String → String

/-- The error kinds of spec §7, carrying the message/failure data the
raised `ValueError`s carry in the source. -/
inductive ToolError where
  | unknownTool : String → ToolError
  | invalidArgument : String → ToolError
  | locationNotFound : ResolutionFailure → ToolError
deriving DecidableEq

/-- The tool dispatcher `call_tool` (server.py lines 170-206), threaded
through the location-table state so that its (absence of) mutation is
explicit: each branch returns its result together with the table. -/
def call_tool (clock : HostClock) (name : String)
    (arguments : List (String × String)) (m : Table) :
    Except ToolError (List String) × Table :=
  if name = "get_day_name" then (.ok [clock.dayName], m)
  else if name = "get_iso_date" then (.ok [clock.isoDate], m)
  else if name = "current_time" then (.ok [clock.localNowIso], m)
  else if name = "current_time_utc" then (.ok [current_time_utc_text clock.utcNow], m)
  else if name = "current_time_location" then
    match dictGet arguments "location" with
    | none => (.error (.invalidArgument "location parameter is required"), m)
    | some location =>
      if location = "" then
        (.error (.invalidArgument "location parameter is required"), m)
      else
        match get_timezone_from_location m location with
        | .error f => (.error (.locationNotFound f), m)
        | .ok tz => (.ok [clock.zoneNowIso tz], m)
  else if name = "list_available_locations" then (.ok [list_available_text m], m)
  else (.error (.unknownTool ("Unknown tool: " ++ name)), m)

/-- A concrete host clock used to instantiate theorems with hypotheses at
sample inputs. -/
def sampleClock : HostClock :=
  ⟨"Monday", "2025-06-02", "2025-06-02T12:00:00+02:00",
    ⟨2025, 6, 2, 10, 0, 0, 0⟩,
    fun tz => "2025-06-02T12:00:00+02:00 in " ++ tz⟩

/-! Helper lemmas about the dictionary model. -/

theorem find?_key_eq_none_iff (m : Table) (k : String) :
    m.find? (fun p => p.1 == k) = none ↔ k ∉ m.map Prod.fst := by
  rw [List.find?_eq_none]
  constructor
  · intro h hmem
    obtain ⟨p, hp, hpk⟩ := List.mem_map.mp hmem
    exact h p hp (by simp [beq_iff_eq, hpk])
  · intro h p hp hpk
    exact h (List.mem_map.mpr ⟨p, hp, beq_iff_eq.mp hpk⟩)

theorem dictGet_eq_none_iff (m : Table) (k : String) :
    dictGet m k = none ↔ k ∉ m.map Prod.fst := by
  rw [← find?_key_eq_none_iff]
  unfold dictGet
  rcases h : m.find? (fun p => p.1 == k) with _ | p <;> simp [h]

theorem dictGet_isSome_of_mem (m : Table) (k : String)
    (h : k ∈ m.map Prod.fst) : ∃ v, dictGet m k = some v := by
  rcases hnone : dictGet m k with _ | v
  · exact absurd ((dictGet_eq_none_iff m k).mp hnone) (by simpa using h)
  · exact ⟨v, rfl⟩

theorem find?_cons_pos {α : Type} (p : α → Bool) (a : α) (l : List α) (h : p a = true) :
    (a :: l).find? p = some a := List.find?_cons_of_pos l h

theorem find?_cons_neg {α : Type} (p : α → Bool) (a : α) (l : List α) (h : ¬ p a = true) :
    (a :: l).find? p = l.find? p := List.find?_cons_of_neg l h

theorem find?_map_overwrite (m : Table) (k v k2 : String) :
    (m.map fun p => if p.1 = k then (k, v) else p).find? (fun p => p.1 == k2) =
      if k2 = k then (m.find? (fun p => p.1 == k)).map (fun _ => (k, v))
      else m.find? (fun p => p.1 == k2) := by
  induction m with
  | nil => by_cases h : k2 = k <;> simp [h]
  | cons p t ih =>
    by_cases hp : p.1 = k
    · by_cases hk : k2 = k
      · subst hk
        rw [List.map_cons, if_pos hp, if_pos rfl,
          find?_cons_pos (fun q => q.1 == k2) (k2, v) _ (by simp),
          find?_cons_pos (fun q => q.1 == k2) p t (by simp [beq_iff_eq, hp])]
        rfl
      · rw [List.map_cons, if_pos hp, if_neg hk,
          find?_cons_neg (fun q => q.1 == k2) (k, v) _ (by
            simp only [beq_iff_eq]; exact fun h => hk h.symm),
          find?_cons_neg (fun q => q.1 == k2) p t (by
            simp only [beq_iff_eq, hp]; exact fun h => hk h.symm),
          ih, if_neg hk]
    · by_cases hq : p.1 = k2
      · have hk : ¬ k2 = k := fun h => hp (hq.trans h)
        rw [List.map_cons, if_neg hp, if_neg hk,
          find?_cons_pos (fun q => q.1 == k2) p _ (by simp [beq_iff_eq, hq]),
          find?_cons_pos (fun q => q.1 == k2) p t (by simp [beq_iff_eq, hq])]
      · rw [List.map_cons, if_neg hp,
          find?_cons_neg (fun q => q.1 == k2) p _ (by simp [beq_iff_eq, hq]), ih]
        by_cases hk : k2 = k
        · subst hk
          rw [if_pos rfl, if_pos rfl,
            find?_cons_neg (fun q => q.1 == k2) p t (by simp [beq_iff_eq, hq])]
        · rw [if_neg hk, if_neg hk,
            find?_cons_neg (fun q => q.1 == k2) p t (by simp [beq_iff_eq, hq])]

theorem dictGet_dictInsert (m : Table) (k v k2 : String) :
    dictGet (dictInsert m k v) k2 = if k2 = k then some v else dictGet m k2 := by
  unfold dictInsert
  by_cases hmem : k ∈ m.map Prod.fst
  · rw [if_pos hmem]
    unfold dictGet
    rw [find?_map_overwrite]
    by_cases hk : k2 = k
    · subst hk
      rcases hfind : m.find? (fun p => p.1 == k2) with _ | p
      · exact absurd ((find?_key_eq_none_iff m k2).mp hfind) (by simpa using hmem)
      · rw [if_pos rfl, hfind]
        simp
    · simp [hk]
  · rw [if_neg hmem]
    unfold dictGet
    rw [List.find?_append]
    by_cases hk : k2 = k
    · subst hk
      rw [(find?_key_eq_none_iff m k2).mpr hmem,
        find?_cons_pos (fun q => q.1 == k2) (k2, v) [] (by simp)]
      simp
    · rw [find?_cons_neg (fun q => q.1 == k2) (k, v) [] (by
        simp only [beq_iff_eq]; exact fun h => hk h.symm)]
      simp [hk]

theorem keys_dictInsert (m : Table) (k v : String) :
    (dictInsert m k v).map Prod.fst =
      if k ∈ m.map Prod.fst then m.map Prod.fst else m.map Prod.fst ++ [k] := by
  unfold dictInsert
  by_cases hmem : k ∈ m.map Prod.fst
  · rw [if_pos hmem, if_pos hmem, List.map_map]
    refine List.map_congr_left (fun p _ => ?_)
    by_cases hp : p.1 = k <;> simp [hp]
  · rw [if_neg hmem, if_neg hmem]
    simp

theorem mem_keys_dictInsert (m : Table) (k v : String) :
    k ∈ (dictInsert m k v).map Prod.fst := by
  rw [keys_dictInsert]
  by_cases hmem : k ∈ m.map Prod.fst <;> simp [hmem]

/-! Helper lemmas about `List.find?`. -/

theorem find?_eq_get_of_first {α : Type} (p : α → Bool) (l : List α) (i : Fin l.length)
    (hp : p (l.get i) = true)
    (hfirst : ∀ j : Fin l.length, j.val < i.val → ¬ p (l.get j) = true) :
    l.find? p = some (l.get i) := by
  induction l with
  | nil => exact absurd i.isLt (by simp)
  | cons a t ih =>
    rcases i with ⟨iv, hi⟩
    cases iv with
    | zero => exact List.find?_cons_of_pos _ hp
    | succ j =>
      have ha : ¬ p a = true := hfirst ⟨0, by simp⟩ (Nat.succ_pos j)
      rw [List.find?_cons_of_neg _ ha]
      exact ih ⟨j, Nat.lt_of_succ_lt_succ hi⟩ hp
        (fun jj hjj => hfirst ⟨jj.val + 1, Nat.succ_lt_succ jj.isLt⟩
          (Nat.succ_lt_succ hjj))

theorem find?_eq_some_of_unique {α : Type} (p : α → Bool) (l : List α) (a : α)
    (ha : a ∈ l) (hpa : p a = true) (huniq : ∀ x ∈ l, p x = true → x = a) :
    l.find? p = some a := by
  induction l with
  | nil => cases ha
  | cons b t ih =>
    by_cases hb : p b = true
    · rw [List.find?_cons_of_pos _ hb, huniq b (List.mem_cons_self b t) hb]
    · rw [List.find?_cons_of_neg _ hb]
      rcases List.mem_cons.mp ha with rfl | hat
      · exact absurd hpa hb
      · exact ih hat (fun x hx => huniq x (List.mem_cons_of_mem b hx))

/-! Helper lemmas about ASCII case mapping. -/

theorem char_toNat_ofNat_valid (n : Nat) (h : n < 55296) : (Char.ofNat n).toNat = n := by
  have hv : n.isValidChar := Or.inl h
  rw [Char.ofNat, dif_pos hv]
  simp [Char.ofNatAux, Char.toNat, UInt32.toNat]

theorem char_toLower_toUpper (c : Char) : c.toUpper.toLower = c.toLower := by
  by_cases h : c.toNat ≥ 97 ∧ c.toNat ≤ 122
  · have hu : c.toUpper = Char.ofNat (c.toNat - 32) := by rw [Char.toUpper, if_pos h]
    have ht : c.toUpper.toNat = c.toNat - 32 := by
      rw [hu]
      exact char_toNat_ofNat_valid _ (by omega)
    rw [Char.toLower, if_pos (show c.toUpper.toNat ≥ 65 ∧ c.toUpper.toNat ≤ 90 by
      rw [ht]; omega), ht]
    have hsum : c.toNat - 32 + 32 = c.toNat := by omega
    rw [hsum, Char.ofNat_toNat, Char.toLower, if_neg (by omega)]
  · have hu : c.toUpper = c := by rw [Char.toUpper, if_neg h]
    rw [hu]

theorem char_toLower_toLower (c : Char) : c.toLower.toLower = c.toLower := by
  by_cases h : c.toNat ≥ 65 ∧ c.toNat ≤ 90
  · have hl : c.toLower = Char.ofNat (c.toNat + 32) := by rw [Char.toLower, if_pos h]
    have ht : c.toLower.toNat = c.toNat + 32 := by
      rw [hl]
      exact char_toNat_ofNat_valid _ (by omega)
    rw [Char.toLower, if_neg (show ¬ (c.toLower.toNat ≥ 65 ∧ c.toLower.toNat ≤ 90) by
      rw [ht]; omega)]
  · have hl : c.toLower = c := by rw [Char.toLower, if_neg h]
    rw [hl, hl]

theorem pyLower_pyUpper (s : String) : pyLower (pyUpper s) = pyLower s := by
  simp only [pyLower, pyUpper, List.map_map]
  exact congrArg String.mk (List.map_congr_left fun c _ => char_toLower_toUpper c)

theorem pyLower_pyLower (s : String) : pyLower (pyLower s) = pyLower s := by
  simp only [pyLower, List.map_map]
  exact congrArg String.mk (List.map_congr_left fun c _ => char_toLower_toLower c)

theorem eq_of_mem_nodup_keys {m : Table} (h : (m.map Prod.fst).Nodup)
    {x y : String × String} (hx : x ∈ m) (hy : y ∈ m) (hxy : x.1 = y.1) : x = y := by
  induction m with
  | nil => cases hx
  | cons a t ih =>
    rw [List.map_cons, List.nodup_cons] at h
    rcases List.mem_cons.mp hx with rfl | hx2
    · rcases List.mem_cons.mp hy with rfl | hy2
      · rfl
      · exact absurd (List.mem_map.mpr ⟨y, hy2, hxy.symm⟩) h.1
    · rcases List.mem_cons.mp hy with rfl | hy2
      · exact absurd (List.mem_map.mpr ⟨x, hx2, hxy⟩) h.1
      · exact ih h.2 hx2 hy2

theorem dictGet_entry (m : Table) (k tz : String) (h : dictGet m k = some tz) :
    ∃ p, p ∈ m ∧ p.1 = k ∧ p.2 = tz ∧ m.find? (fun q => q.1 == k) = some p := by
  unfold dictGet at h
  rcases hf : m.find? (fun q => q.1 == k) with _ | p
  · rw [hf] at h
    cases h
  · rw [hf] at h
    have hp := @List.find?_some _ (fun q => q.1 == k) p m hf
    exact ⟨p, List.mem_of_find?_eq_some hf, beq_iff_eq.mp hp, by simpa using h, hf⟩

/-! Reduction lemmas for the three outcomes of the resolver. -/

theorem resolve_eq_of_exact (m : Table) (loc tz : String)
    (h : dictGet m loc = some tz) :
    get_timezone_from_location m loc = .ok tz := by
  unfold get_timezone_from_location
  rw [h]

theorem resolve_eq_of_scan (m : Table) (loc : String) (p : String × String)
    (h : dictGet m loc = none)
    (hf : m.find? (fun q => pyLower q.1 == pyLower loc) = some p) :
    get_timezone_from_location m loc = .ok p.2 := by
  unfold get_timezone_from_location
  rw [h, hf]

theorem resolve_eq_of_notfound (m : Table) (loc : String)
    (h : dictGet m loc = none)
    (hf : m.find? (fun q => pyLower q.1 == pyLower loc) = none) :
    get_timezone_from_location m loc =
      .error ⟨loc, (m.map Prod.fst).take 5, error_msg m loc⟩ := by
  unfold get_timezone_from_location
  rw [h, hf]

/-- Core of the case-insensitive fallback: when `L` resolves exactly to `tz`,
the table has no duplicate names, and no other entry's name equals `L`
case-insensitively, then every string with the same lowercase form as `L`
resolves to `tz`. -/
theorem resolve_of_lower_eq (m : Table) (L tz V : String)
    (hnodup : (m.map Prod.fst).Nodup)
    (hL : dictGet m L = some tz)
    (huniq : ∀ e ∈ m, pyLower e.1 = pyLower L → e.1 = L)
    (hV : pyLower V = pyLower L) :
    get_timezone_from_location m V = .ok tz := by
  obtain ⟨p, hpmem, hpkey, hp2, hpfind⟩ := dictGet_entry m L tz hL
  rcases hdv : dictGet m V with _ | tzv
  · rw [← hp2]
    refine resolve_eq_of_scan m V p hdv
      (find?_eq_some_of_unique (fun q => pyLower q.1 == pyLower V) m p hpmem
        (by simp [beq_iff_eq, hV, hpkey])
        (fun x hx hpx => ?_))
    have hxL : x.1 = L := huniq x hx (by
      rw [← hV]
      exact beq_iff_eq.mp hpx)
    exact eq_of_mem_nodup_keys hnodup hx hpmem (hxL.trans hpkey.symm)
  · obtain ⟨q, hqmem, hqkey, hq2, _⟩ := dictGet_entry m V tzv hdv
    have hVL : V = L := by
      rw [← hqkey]
      exact huniq q hqmem (by rw [hqkey, hV])
    subst hVL
    rw [hL] at hdv
    cases hdv
    exact resolve_eq_of_exact m V tz hL

/-! Claim theorems. -/

/-- C1: for every location string, resolution tries an exact dictionary
lookup first; failing that it scans the entries in table iteration order and
returns the timezone of the first case-insensitive match; failing that it
fails with the structured not-found error. -/
theorem claim_c1 (m : Table) (loc : String) :
    (∀ tz, dictGet m loc = some tz → get_timezone_from_location m loc = .ok tz) ∧
    (dictGet m loc = none →
      ∀ i : Fin m.length, pyLower (m.get i).1 = pyLower loc →
        (∀ j : Fin m.length, j.val < i.val → pyLower (m.get j).1 ≠ pyLower loc) →
        get_timezone_from_location m loc = .ok (m.get i).2) ∧
    (dictGet m loc = none → (∀ e ∈ m, pyLower e.1 ≠ pyLower loc) →
      ∃ f, get_timezone_from_location m loc = .error f) := by
  refine ⟨fun tz h => resolve_eq_of_exact m loc tz h, ?_, ?_⟩
  · intro hnone i hpi hfirst
    exact resolve_eq_of_scan m loc (m.get i) hnone
      (find?_eq_get_of_first (fun q => pyLower q.1 == pyLower loc) m i
        (by rw [beq_iff_eq]; exact hpi)
        (fun j hj => by
          rw [beq_iff_eq]
          exact hfirst j hj))
  · intro hnone hall
    exact ⟨_, resolve_eq_of_notfound m loc hnone
      (List.find?_eq_none.mpr (fun x hx => by
        simp only [beq_iff_eq]
        simpa using hall x hx))⟩

/-- C1 witness: on the built-in table, `"London"` resolves exactly,
`"london"` resolves through the case-insensitive scan to the entry at
index 4 (the first and only match), and `"Atlantis"` fails. -/
theorem claim_c1_witness :
    get_timezone_from_location LOCATION_MAP "London" = .ok "Europe/London" ∧
    get_timezone_from_location LOCATION_MAP "london" = .ok "Europe/London" ∧
    ∃ f, get_timezone_from_location LOCATION_MAP "Atlantis" = .error f := by
  refine ⟨(claim_c1 LOCATION_MAP "London").1 "Europe/London" (by decide), ?_,
    (claim_c1 LOCATION_MAP "Atlantis").2.2 (by decide) (by decide)⟩
  exact (claim_c1 LOCATION_MAP "london").2.1 (by decide) ⟨4, by decide⟩
    (by decide) (by decide)

/-- C2 counterexample: before the override, `"Vienna"` is absent from the
table; applying the override string `"Vienna="` (which does contain `'='`)
stores the entry `"Vienna" ↦ ""`, so the lookup of that name changes —
the claim that the table is left unchanged for that entry is false. -/
theorem claim_c2_counterexample :
    dictGet LOCATION_MAP "Vienna" = none ∧
    dictGet (apply_overrides LOCATION_MAP "Vienna=") "Vienna" = some "" ∧
    dictGet (apply_overrides LOCATION_MAP "Vienna=") "Vienna" ≠
      dictGet LOCATION_MAP "Vienna" := by
  exact ⟨by decide, by decide, by decide⟩

/-- C2 amended: the override string `"malformed"` (no `'='`) leaves the
table unchanged, but `"Vienna="` contains `'='` and therefore stores the
entry `"Vienna"` with the empty string as its timezone, so the subsequent
lookup of `"Vienna"` returns the empty string rather than its previous
result. -/
theorem claim_c2_amended (m : Table) :
    apply_overrides m "malformed" = m ∧
    dictGet (apply_overrides m "Vienna=") "Vienna" = some "" := by
  constructor
  · unfold apply_overrides
    rw [show splitCharL ',' ("malformed".data) = ["malformed".data] from rfl]
    show apply_entry m ("malformed".data) = m
    unfold apply_entry
    rw [if_neg (by decide)]
  · unfold apply_overrides
    rw [show splitCharL ',' ("Vienna=".data) = ["Vienna=".data] from rfl]
    show dictGet (apply_entry m ("Vienna=".data)) "Vienna" = some ""
    unfold apply_entry
    rw [if_pos (by decide),
      show String.mk (stripL (splitOnceL '=' (stripL ("Vienna=".data))).1) = "Vienna" from rfl,
      show String.mk (stripL (splitOnceL '=' (stripL ("Vienna=".data))).2) = "" from rfl,
      dictGet_dictInsert, if_pos rfl]

/-- C2 amended witness: instantiated at the built-in table. -/
theorem claim_c2_amended_witness :
    apply_overrides LOCATION_MAP "malformed" = LOCATION_MAP ∧
    dictGet (apply_overrides LOCATION_MAP "Vienna=") "Vienna" = some "" :=
  claim_c2_amended LOCATION_MAP

/-- C4: whenever resolution finds no exact and no case-insensitive match,
the failure carries the first five table names (at most five) in insertion
order as the sample, and its remediation message contains the literal
queried name, a worked configuration example
`<name>=<IANA_TIMEZONE>` using the queried name, and the multi-location
example. -/
theorem claim_c4 (m : Table) (loc : String)
    (hexact : dictGet m loc = none)
    (hci : ∀ e ∈ m, pyLower e.1 ≠ pyLower loc) :
    ∃ f, get_timezone_from_location m loc = .error f ∧
      f.sample = (m.map Prod.fst).take 5 ∧
      f.sample.length ≤ 5 ∧
      (∃ a b, f.remediation = a ++ loc ++ b) ∧
      (∃ a b, f.remediation = a ++ (loc ++ "=<IANA_TIMEZONE>") ++ b) ∧
      (∃ a b, f.remediation = a ++ "Vienna=Europe/Vienna,Sydney=Australia/Sydney" ++ b) := by
  refine ⟨⟨loc, (m.map Prod.fst).take 5, error_msg m loc⟩,
    resolve_eq_of_notfound m loc hexact
      (List.find?_eq_none.mpr (fun x hx => by
        simp only [beq_iff_eq]
        simpa using hci x hx)),
    rfl, List.length_take_le 5 (m.map Prod.fst), ?_, ?_, ?_⟩
  · exact ⟨"Unknown location: '",
      msg_mid m ++ (loc ++ (msg_block ++ (loc ++ ("=<IANA_TIMEZONE>" ++
        (msg_tail ++ ("Vienna=Europe/Vienna,Sydney=Australia/Sydney" ++ "\"")))))),
      by simp only [error_msg, String.append_assoc]⟩
  · exact ⟨"Unknown location: '" ++ loc ++ msg_mid m ++ loc ++ msg_block,
      msg_tail ++ ("Vienna=Europe/Vienna,Sydney=Australia/Sydney" ++ "\""),
      by simp only [error_msg, String.append_assoc]⟩
  · exact ⟨"Unknown location: '" ++ loc ++ msg_mid m ++ loc ++ msg_block ++ loc ++
      "=<IANA_TIMEZONE>" ++ msg_tail, "\"",
      by simp only [error_msg, String.append_assoc]⟩

/-- C4 witness: `"Nonexistent City"` matches nothing in the built-in
table, so the failure with its sample and remediation text exists. -/
theorem claim_c4_witness :
    dictGet LOCATION_MAP "Nonexistent City" = none ∧
    (∀ e ∈ LOCATION_MAP, pyLower e.1 ≠ pyLower "Nonexistent City") ∧
    ∃ f, get_timezone_from_location LOCATION_MAP "Nonexistent City" = .error f ∧
      f.sample = (LOCATION_MAP.map Prod.fst).take 5 ∧
      f.sample.length ≤ 5 ∧
      (∃ a b, f.remediation = a ++ "Nonexistent City" ++ b) ∧
      (∃ a b, f.remediation = a ++ ("Nonexistent City" ++ "=<IANA_TIMEZONE>") ++ b) ∧
      (∃ a b, f.remediation = a ++ "Vienna=Europe/Vienna,Sydney=Australia/Sydney" ++ b) :=
  ⟨by decide, by decide, claim_c4 LOCATION_MAP "Nonexistent City" (by decide) (by decide)⟩

/-- C8 counterexample: after the override `"LoNdOn=Foo/Bar"` the name
`"LoNdOn"` is present, neither `"LONDON"` nor `"london"` has an exact
(distinctly-cased) entry — the provisos of the claim as stated — yet
`resolve("LONDON")` returns the built-in London timezone while
`resolve("LoNdOn")` returns the override's, so the claimed equality
fails. -/
theorem claim_c8_counterexample :
    dictGet (apply_overrides LOCATION_MAP "LoNdOn=Foo/Bar") "LoNdOn" = some "Foo/Bar" ∧
    dictGet (apply_overrides LOCATION_MAP "LoNdOn=Foo/Bar") (pyUpper "LoNdOn") = none ∧
    dictGet (apply_overrides LOCATION_MAP "LoNdOn=Foo/Bar") (pyLower "LoNdOn") = none ∧
    get_timezone_from_location (apply_overrides LOCATION_MAP "LoNdOn=Foo/Bar")
      "LoNdOn" = .ok "Foo/Bar" ∧
    get_timezone_from_location (apply_overrides LOCATION_MAP "LoNdOn=Foo/Bar")
      (pyUpper "LoNdOn") = .ok "Europe/London" ∧
    get_timezone_from_location (apply_overrides LOCATION_MAP "LoNdOn=Foo/Bar")
      (pyLower "LoNdOn") = .ok "Europe/London" := by
  exact ⟨by decide, by decide, by decide, by decide, by decide, by decide⟩

/-- C8 amended: for a table without duplicate names (as Python dictionary
keys are), if `L` has an entry and no other entry's name equals `L`
case-insensitively, then `resolve(L.upper())`, `resolve(L.lower())` and
`resolve(L)` all return `L`'s timezone.  (The original proviso — only that
no distinctly-cased exact entry exists for the two variants — is not
enough: another entry in the same case-insensitive class, such as an
override `"LoNdOn"` alongside the built-in `"London"`, can be hit first by
the scan.) -/
theorem claim_c8_amended (m : Table) (L tz : String)
    (hnodup : (m.map Prod.fst).Nodup)
    (hL : dictGet m L = some tz)
    (huniq : ∀ e ∈ m, pyLower e.1 = pyLower L → e.1 = L) :
    get_timezone_from_location m (pyUpper L) = .ok tz ∧
    get_timezone_from_location m (pyLower L) = .ok tz ∧
    get_timezone_from_location m L = .ok tz :=
  ⟨resolve_of_lower_eq m L tz (pyUpper L) hnodup hL huniq (pyLower_pyUpper L),
   resolve_of_lower_eq m L tz (pyLower L) hnodup hL huniq (pyLower_pyLower L),
   resolve_of_lower_eq m L tz L hnodup hL huniq rfl⟩

/-- C8 amended witness: instantiated at the built-in table and
`L = "London"`. -/
theorem claim_c8_amended_witness :
    (LOCATION_MAP.map Prod.fst).Nodup ∧
    dictGet LOCATION_MAP "London" = some "Europe/London" ∧
    (∀ e ∈ LOCATION_MAP, pyLower e.1 = pyLower "London" → e.1 = "London") ∧
    (get_timezone_from_location LOCATION_MAP (pyUpper "London") = .ok "Europe/London" ∧
     get_timezone_from_location LOCATION_MAP (pyLower "London") = .ok "Europe/London" ∧
     get_timezone_from_location LOCATION_MAP "London" = .ok "Europe/London") :=
  ⟨by decide, by decide, by decide,
    claim_c8_amended LOCATION_MAP "London" "Europe/London" (by decide) (by decide) (by decide)⟩

/-- C9: no dispatch path mutates the location table — for every tool name,
argument set, clock and table state, the table after `call_tool` is exactly
the table before. -/
theorem claim_c9 (clock : HostClock) (name : String)
    (args : List (String × String)) (m : Table) :
    (call_tool clock name args m).2 = m := by
  unfold call_tool
  repeat' split
  all_goals rfl

/-- C5: dispatching `current_time_location` fails with `InvalidArgument`
exactly when the `location` argument is absent or the empty string; for a
non-empty location it propagates the resolver's `LocationNotFound` failure,
and on successful resolution returns the current instant in the resolved
timezone. -/
theorem claim_c5 (clock : HostClock) (m : Table) (args : List (String × String)) :
    ((∃ s, (call_tool clock "current_time_location" args m).1 =
        .error (.invalidArgument s)) ↔
      (dictGet args "location" = none ∨ dictGet args "location" = some "")) ∧
    (∀ loc, dictGet args "location" = some loc → loc ≠ "" →
      (∀ f, get_timezone_from_location m loc = .error f →
        (call_tool clock "current_time_location" args m).1 =
          .error (.locationNotFound f)) ∧
      (∀ tz, get_timezone_from_location m loc = .ok tz →
        (call_tool clock "current_time_location" args m).1 =
          .ok [clock.zoneNowIso tz])) := by
  have hred : call_tool clock "current_time_location" args m =
      (match dictGet args "location" with
       | none => (.error (.invalidArgument "location parameter is required"), m)
       | some location =>
         if location = "" then
           (.error (.invalidArgument "location parameter is required"), m)
         else
           match get_timezone_from_location m location with
           | .error f => (.error (.locationNotFound f), m)
           | .ok tz => (.ok [clock.zoneNowIso tz], m)) := by
    unfold call_tool
    rw [if_neg (by decide), if_neg (by decide), if_neg (by decide),
      if_neg (by decide), if_pos rfl]
  rw [hred]
  constructor
  · constructor
    · rintro ⟨s, hs⟩
      cases hloc : dictGet args "location" with
      | none => exact Or.inl rfl
      | some loc0 =>
        rw [hloc] at hs
        by_cases hempty : loc0 = ""
        · exact Or.inr (by rw [hempty])
        · exfalso
          simp only [if_neg hempty] at hs
          cases hres : get_timezone_from_location m loc0 with
          | ok tz =>
            rw [hres] at hs
            simp at hs
          | error f =>
            rw [hres] at hs
            simp at hs
    · intro h
      rcases h with hnone | hempty
      · exact ⟨"location parameter is required", by rw [hnone]⟩
      · refine ⟨"location parameter is required", by rw [hempty]; rfl⟩
  · intro loc hsome hne
    constructor
    · intro f hf
      simp only [hsome, if_neg hne, hf]
    · intro tz htz
      simp only [hsome, if_neg hne, htz]

/-- C5 witness: without a `location` argument the dispatch fails with
`InvalidArgument`; with `location = "London"` on the built-in table it
returns the clock's instant in the resolved timezone. -/
theorem claim_c5_witness :
    (∃ s, (call_tool sampleClock "current_time_location" [] LOCATION_MAP).1 =
      .error (.invalidArgument s)) ∧
    (call_tool sampleClock "current_time_location"
        [("location", "London")] LOCATION_MAP).1 =
      .ok [sampleClock.zoneNowIso "Europe/London"] := by
  constructor
  · exact (claim_c5 sampleClock LOCATION_MAP []).1.mpr (Or.inl (by decide))
  · exact ((claim_c5 sampleClock LOCATION_MAP [("location", "London")]).2
      "London" (by decide) (by decide)).2 "Europe/London" (by decide)

/-- C6: for every table state with distinct names (a Python dictionary
invariant), the `list_available_locations` tool returns a single text block
joining all table names with newlines, the joined name list being sorted
strictly ascending in the code-point lexicographic string order — in
particular it is duplicate-free and a permutation of the table's names. -/
theorem claim_c6 (m : Table) (hnodup : (m.map Prod.fst).Nodup) :
    (∀ clock args, (call_tool clock "list_available_locations" args m).1 =
      .ok [list_available_text m]) ∧
    list_available_text m = joinNewline (sortedNames m) ∧
    List.Sorted (· < ·) (sortedNames m) ∧
    (sortedNames m).Nodup ∧
    (sortedNames m).Perm (m.map Prod.fst) := by
  have hperm : (sortedNames m).Perm (m.map Prod.fst) := List.perm_insertionSort _ _
  have hsorted : List.Sorted (· ≤ ·) (sortedNames m) :=
    List.sorted_insertionSort (· ≤ ·) (m.map Prod.fst)
  have hnd : (sortedNames m).Nodup := hperm.nodup_iff.mpr hnodup
  refine ⟨?_, rfl, ?_, hnd, hperm⟩
  · intro clock args
    unfold call_tool
    rw [if_neg (by decide), if_neg (by decide), if_neg (by decide),
      if_neg (by decide), if_neg (by decide), if_pos rfl]
  · exact (List.Pairwise.and hnd hsorted).imp (fun h => lt_of_le_of_ne h.2 h.1)

/-- C6 witness: the built-in table has distinct names, and the tool's
output on it joins the sorted names. -/
theorem claim_c6_witness :
    (LOCATION_MAP.map Prod.fst).Nodup ∧
    (call_tool sampleClock "list_available_locations" [] LOCATION_MAP).1 =
      .ok [list_available_text LOCATION_MAP] ∧
    List.Sorted (· < ·) (sortedNames LOCATION_MAP) := by
  have h := claim_c6 LOCATION_MAP (by decide)
  exact ⟨by decide, h.1 sampleClock [], h.2.2.1⟩

/-! Helper lemmas for the UTC timestamp format. -/

theorem decimal_ne_plus : ∀ c ∈ decimalDigits, c ≠ '+' := by decide

theorem digitChar_mem (d : Nat) : digitChar d ∈ decimalDigits := by
  have h : d % 10 < decimalDigits.length := Nat.mod_lt d (by decide)
  rw [digitChar, List.getD_eq_getElem decimalDigits '0' h]
  exact List.getElem_mem h

theorem natDigits_subset (n : Nat) : ∀ c ∈ natDigits n, c ∈ decimalDigits := by
  induction n using Nat.strong_induction_on with
  | _ n ih =>
    intro c hc
    rw [natDigits] at hc
    by_cases h : n < 10
    · rw [if_pos h] at hc
      rw [List.mem_singleton.mp hc]
      exact digitChar_mem n
    · rw [if_neg h] at hc
      rcases List.mem_append.mp hc with h1 | h1
      · exact ih (n / 10) (Nat.div_lt_self (by omega) (by omega)) c h1
      · rw [List.mem_singleton.mp h1]
        exact digitChar_mem (n % 10)

theorem padDigits_ne_plus (w n : Nat) : ∀ c ∈ padDigits w n, c ≠ '+' := by
  intro c hc
  rcases List.mem_append.mp hc with h | h
  · rw [List.eq_of_mem_replicate h]
    decide
  · exact decimal_ne_plus c (natDigits_subset n c h)

theorem isoBodyUtc_ne_plus (t : PyDateTime) : ∀ c ∈ isoBodyUtc t, c ≠ '+' := by
  intro c hc
  simp only [isoBodyUtc, List.mem_append] at hc
  rcases hc with (((((((((((h | h) | h) | h) | h) | h) | h) | h) | h) | h) | h) | h)
  · exact padDigits_ne_plus 4 t.year c h
  · rw [List.mem_singleton.mp h]; decide
  · exact padDigits_ne_plus 2 t.month c h
  · rw [List.mem_singleton.mp h]; decide
  · exact padDigits_ne_plus 2 t.day c h
  · rw [List.mem_singleton.mp h]; decide
  · exact padDigits_ne_plus 2 t.hour c h
  · rw [List.mem_singleton.mp h]; decide
  · exact padDigits_ne_plus 2 t.minute c h
  · rw [List.mem_singleton.mp h]; decide
  · exact padDigits_ne_plus 2 t.second c h
  · by_cases hms : t.microsecond = 0
    · rw [if_pos hms] at h
      cases h
    · rw [if_neg hms] at h
      rcases List.mem_append.mp h with h2 | h2
      · rw [List.mem_singleton.mp h2]; decide
      · exact padDigits_ne_plus 6 t.microsecond c h2

theorem replaceList_cons_of_ne (p r : List Char) (c : Char) (l : List Char)
    (h : ¬ p.isPrefixOf (c :: l) = true) :
    replaceList p r (c :: l) = c :: replaceList p r l := by
  rw [replaceList]
  rw [if_neg (fun hand => h hand.2)]

theorem replaceList_no_plus (pre : List Char)
    (hpre : ∀ c ∈ pre, c ≠ '+') :
    replaceList ('+' :: '0' :: '0' :: ':' :: '0' :: ['0']) ['Z']
        (pre ++ '+' :: '0' :: '0' :: ':' :: '0' :: ['0']) =
      pre ++ ['Z'] := by
  induction pre with
  | nil =>
    rw [List.nil_append, List.nil_append, replaceList]
    rw [if_pos ⟨by simp, by simp [List.isPrefixOf]⟩]
    rw [show (('0' :: '0' :: ':' :: '0' :: ['0']).drop
      (('+' :: '0' :: '0' :: ':' :: '0' :: ['0']).length - 1)) = [] from rfl]
    rw [replaceList]
    rfl
  | cons c pre ih =>
    have hc : c ≠ '+' := hpre c (List.mem_cons_self c pre)
    rw [List.cons_append, replaceList_cons_of_ne _ _ _ _ (by
      simp only [List.isPrefixOf, Bool.and_eq_true, beq_iff_eq]
      rintro ⟨h1, _⟩
      exact hc h1.symm)]
    rw [ih (fun d hd => hpre d (List.mem_cons_of_mem c hd))]
    rfl

/-- Every `current_time_utc` text is the ISO body followed by a literal
`Z`, and never ends with the `+00:00` suffix. -/
theorem utc_text_ends_with_Z (t : PyDateTime) :
    (∃ pre : String, current_time_utc_text t = pre ++ "Z") ∧
    (∀ pre : String, current_time_utc_text t ≠ pre ++ "+00:00") := by
  have hmain : replaceList ("+00:00".data) ("Z".data) (isoCharsUtc t) =
      isoBodyUtc t ++ ['Z'] := by
    rw [show "+00:00".data = '+' :: '0' :: '0' :: ':' :: '0' :: ['0'] from rfl,
      show "Z".data = ['Z'] from rfl, isoCharsUtc]
    exact replaceList_no_plus (isoBodyUtc t) (isoBodyUtc_ne_plus t)
  constructor
  · refine ⟨String.mk (isoBodyUtc t), ?_⟩
    unfold current_time_utc_text
    rw [hmain]
    rfl
  · intro pre hcontra
    have hdq := congrArg String.data hcontra
    rw [String.data_append] at hdq
    unfold current_time_utc_text at hdq
    rw [show (String.mk (replaceList ("+00:00".data) ("Z".data) (isoCharsUtc t))).data =
      replaceList ("+00:00".data) ("Z".data) (isoCharsUtc t) from rfl, hmain] at hdq
    have hrev := congrArg List.reverse hdq
    rw [List.reverse_append, List.reverse_append,
      show (['Z'] : List Char).reverse = ['Z'] from rfl,
      show ("+00:00".data).reverse = '0' :: '0' :: ':' :: '0' :: '0' :: ['+'] from rfl]
      at hrev
    simp at hrev

/-- C7: for every instant the host clock returns, the text produced by the
`current_time_utc` tool is the UTC isoformat with the offset replaced by a
literal `Z`: it always ends with `Z` and never with `+00:00`. -/
theorem claim_c7 (clock : HostClock) (args : List (String × String)) (m : Table) :
    (call_tool clock "current_time_utc" args m).1 =
      .ok [current_time_utc_text clock.utcNow] ∧
    (∃ pre : String, current_time_utc_text clock.utcNow = pre ++ "Z") ∧
    (∀ pre : String, current_time_utc_text clock.utcNow ≠ pre ++ "+00:00") := by
  refine ⟨?_, utc_text_ends_with_Z clock.utcNow⟩
  unfold call_tool
  rw [if_neg (by decide), if_neg (by decide), if_neg (by decide), if_pos rfl]

/-! Generic `takeWhile` and `dropWhile` lemmas used to relate the code's
order of stripping to the spec's. -/

theorem takeWhile_dropWhile_comm {α : Type} (p q : α → Bool)
    (h : ∀ a, q a = true → p a = true) (l : List α) :
    (l.dropWhile q).takeWhile p = (l.takeWhile p).dropWhile q := by
  induction l with
  | nil => rfl
  | cons a t ih =>
    by_cases hq : q a = true
    · rw [List.dropWhile_cons_of_pos hq, ih, List.takeWhile_cons_of_pos (h a hq),
        List.dropWhile_cons_of_pos hq]
    · rw [List.dropWhile_cons_of_neg hq]
      by_cases hp : p a = true
      · rw [List.takeWhile_cons_of_pos hp, List.dropWhile_cons_of_neg hq]
      · rw [List.takeWhile_cons_of_neg hp]
        rfl

theorem dropWhile_dropWhile_of_imp {α : Type} (p q : α → Bool)
    (h : ∀ a, q a = true → p a = true) (l : List α) :
    (l.dropWhile q).dropWhile p = l.dropWhile p := by
  induction l with
  | nil => rfl
  | cons a t ih =>
    by_cases hq : q a = true
    · rw [List.dropWhile_cons_of_pos hq, ih, List.dropWhile_cons_of_pos (h a hq)]
    · rw [List.dropWhile_cons_of_neg hq]

theorem takeWhile_append_of_ne {α : Type} (p : α → Bool) (l1 l2 : List α)
    (h : ∃ x ∈ l1, p x = false) :
    (l1 ++ l2).takeWhile p = l1.takeWhile p := by
  induction l1 with
  | nil => simp at h
  | cons a t ih =>
    by_cases hp : p a = true
    · have h2 : ∃ x ∈ t, p x = false := by
        rcases h with ⟨x, hx, hpx⟩
        rcases List.mem_cons.mp hx with rfl | hxt
        · rw [hp] at hpx
          cases hpx
        · exact ⟨x, hxt, hpx⟩
      rw [List.cons_append, List.takeWhile_cons_of_pos hp,
        List.takeWhile_cons_of_pos hp, ih h2]
    · rw [List.cons_append, List.takeWhile_cons_of_neg hp,
        List.takeWhile_cons_of_neg hp]

theorem dropWhile_append_of_ne {α : Type} (p : α → Bool) (l1 l2 : List α)
    (h : ∃ x ∈ l1, p x = false) :
    (l1 ++ l2).dropWhile p = l1.dropWhile p ++ l2 := by
  induction l1 with
  | nil => simp at h
  | cons a t ih =>
    by_cases hp : p a = true
    · have h2 : ∃ x ∈ t, p x = false := by
        rcases h with ⟨x, hx, hpx⟩
        rcases List.mem_cons.mp hx with rfl | hxt
        · rw [hp] at hpx
          cases hpx
        · exact ⟨x, hxt, hpx⟩
      rw [List.cons_append, List.dropWhile_cons_of_pos hp,
        List.dropWhile_cons_of_pos hp, ih h2]
    · rw [List.cons_append, List.dropWhile_cons_of_neg hp,
        List.dropWhile_cons_of_neg hp, List.cons_append]

theorem dropWhile_ne_nil_of_ne {α : Type} (p : α → Bool) (l : List α)
    (h : ∃ x ∈ l, p x = false) :
    l.dropWhile p ≠ [] := by
  induction l with
  | nil => simp at h
  | cons a t ih =>
    by_cases hp : p a = true
    · have h2 : ∃ x ∈ t, p x = false := by
        rcases h with ⟨x, hx, hpx⟩
        rcases List.mem_cons.mp hx with rfl | hxt
        · rw [hp] at hpx
          cases hpx
        · exact ⟨x, hxt, hpx⟩
      rw [List.dropWhile_cons_of_pos hp]
      exact ih h2
    · rw [List.dropWhile_cons_of_neg hp]
      exact List.cons_ne_nil a t

/-! Lemmas about the strip primitives. -/

theorem ws_imp_ne_eq (c : Char) (h : ws c = true) : (c != '=') = true := by
  simp only [ws, Char.isWhitespace, Bool.or_eq_true, decide_eq_true_eq] at h
  rcases h with ((h | h) | h) | h <;> subst h <;> decide

theorem rstripL_decomp (l : List Char) :
    ∃ s, l = rstripL l ++ s ∧ ∀ c ∈ s, ws c = true := by
  refine ⟨(l.reverse.takeWhile ws).reverse, ?_, ?_⟩
  · calc l = l.reverse.reverse := (List.reverse_reverse l).symm
      _ = (l.reverse.takeWhile ws ++ l.reverse.dropWhile ws).reverse := by
          rw [List.takeWhile_append_dropWhile]
      _ = (l.reverse.dropWhile ws).reverse ++ (l.reverse.takeWhile ws).reverse :=
          List.reverse_append _ _
      _ = rstripL l ++ (l.reverse.takeWhile ws).reverse := rfl
  · intro c hc
    exact List.mem_takeWhile_imp (List.mem_reverse.mp hc)

theorem mem_rstripL (l : List Char) (c : Char) (hc : c ∈ l) (hws : ws c = false) :
    c ∈ rstripL l := by
  obtain ⟨s, hdecomp, hs⟩ := rstripL_decomp l
  rw [hdecomp] at hc
  rcases List.mem_append.mp hc with h | h
  · exact h
  · rw [hs c h] at hws
    cases hws

theorem mem_lstripL (l : List Char) (c : Char) (hc : c ∈ l) (hws : ws c = false) :
    c ∈ lstripL l := by
  rw [← List.takeWhile_append_dropWhile ws l] at hc
  rcases List.mem_append.mp hc with h | h
  · rw [List.mem_takeWhile_imp h] at hws
    cases hws
  · exact h

theorem mem_stripL (l : List Char) (c : Char) (hc : c ∈ l) (hws : ws c = false) :
    c ∈ stripL l :=
  mem_lstripL (rstripL l) c (mem_rstripL l c hc hws) hws

theorem stripL_subset (l : List Char) (c : Char) (hc : c ∈ stripL l) : c ∈ l := by
  obtain ⟨s, hdecomp, _⟩ := rstripL_decomp l
  have h1 : c ∈ rstripL l := by
    rw [← List.takeWhile_append_dropWhile ws (rstripL l)]
    exact List.mem_append.mpr (Or.inr hc)
  rw [hdecomp]
  exact List.mem_append.mpr (Or.inl h1)

theorem mem_eq_stripL_iff (l : List Char) : '=' ∈ stripL l ↔ '=' ∈ l := by
  constructor
  · exact stripL_subset l '='
  · intro h
    exact mem_stripL l '=' h (by decide)

theorem rstripL_append_ws (y s : List Char) (hs : ∀ c ∈ s, ws c = true) :
    rstripL (y ++ s) = rstripL y := by
  unfold rstripL
  rw [List.reverse_append, List.dropWhile_append,
    if_pos (List.isEmpty_iff.mpr (List.dropWhile_eq_nil_iff.mpr
      (fun x hx => hs x (List.mem_reverse.mp hx))))]

theorem stripL_append_ws (y s : List Char) (hs : ∀ c ∈ s, ws c = true) :
    stripL (y ++ s) = stripL y := by
  unfold stripL
  rw [rstripL_append_ws y s hs]

theorem stripL_ws_append (s y : List Char) (hs : ∀ c ∈ s, ws c = true) :
    stripL (s ++ y) = stripL y := by
  have hsrev : ∀ c ∈ s.reverse, ws c = true := fun c hc => hs c (List.mem_reverse.mp hc)
  have hr : rstripL (s ++ y) =
      if (y.reverse.dropWhile ws).isEmpty = true then [] else s ++ rstripL y := by
    unfold rstripL
    rw [List.reverse_append, List.dropWhile_append]
    by_cases hy : (y.reverse.dropWhile ws).isEmpty = true
    · rw [if_pos hy, if_pos hy, List.dropWhile_eq_nil_iff.mpr hsrev]
      rfl
    · rw [if_neg hy, if_neg hy, List.reverse_append, List.reverse_reverse]
  show lstripL (rstripL (s ++ y)) = stripL y
  rw [hr]
  by_cases hy : (y.reverse.dropWhile ws).isEmpty = true
  · rw [if_pos hy]
    have hy2 : rstripL y = [] := by
      unfold rstripL
      rw [List.isEmpty_iff.mp hy]
      rfl
    show lstripL [] = stripL y
    rw [show stripL y = lstripL (rstripL y) from rfl, hy2]
  · rw [if_neg hy]
    show lstripL (s ++ rstripL y) = stripL y
    unfold lstripL
    rw [List.dropWhile_append,
      if_pos (List.isEmpty_iff.mpr (List.dropWhile_eq_nil_iff.mpr hs))]
    rfl

theorem stripL_lstripL (l : List Char) : stripL (lstripL l) = stripL l := by
  conv_rhs => rw [← List.takeWhile_append_dropWhile ws l]
  rw [stripL_ws_append _ _ (fun c hc => List.mem_takeWhile_imp hc)]
  rfl

/-- Stripping the whole entry before splitting at the first `'='` and then
stripping the name side gives the same name as splitting the unstripped
entry and stripping that side (the code's order versus the spec's). -/
theorem stripL_takeWhile_stripL (e : List Char) (he : '=' ∈ e) :
    stripL ((stripL e).takeWhile (fun c => c != '=')) =
    stripL (e.takeWhile (fun c => c != '=')) := by
  obtain ⟨s, hdecomp, hs⟩ := rstripL_decomp e
  have hmem : '=' ∈ rstripL e := mem_rstripL e '=' he (by decide)
  have hfalse : ∃ x ∈ rstripL e, ((x != '=') : Bool) = false := ⟨'=', hmem, by decide⟩
  have h1 : (stripL e).takeWhile (fun c => c != '=') =
      ((rstripL e).takeWhile (fun c => c != '=')).dropWhile ws :=
    takeWhile_dropWhile_comm (fun c => c != '=') ws ws_imp_ne_eq (rstripL e)
  rw [h1]
  have h2 : stripL (((rstripL e).takeWhile (fun c => c != '=')).dropWhile ws) =
      stripL ((rstripL e).takeWhile (fun c => c != '=')) :=
    stripL_lstripL ((rstripL e).takeWhile (fun c => c != '='))
  rw [h2]
  conv_rhs => rw [hdecomp]
  rw [takeWhile_append_of_ne (fun c => c != '=') (rstripL e) s hfalse]

/-- The same commutation for the timezone side of the split. -/
theorem stripL_tail_dropWhile_stripL (e : List Char) (he : '=' ∈ e) :
    stripL (((stripL e).dropWhile (fun c => c != '=')).tail) =
    stripL ((e.dropWhile (fun c => c != '=')).tail) := by
  obtain ⟨s, hdecomp, hs⟩ := rstripL_decomp e
  have hmem : '=' ∈ rstripL e := mem_rstripL e '=' he (by decide)
  have hfalse : ∃ x ∈ rstripL e, ((x != '=') : Bool) = false := ⟨'=', hmem, by decide⟩
  have h1 : (stripL e).dropWhile (fun c => c != '=') =
      (rstripL e).dropWhile (fun c => c != '=') :=
    dropWhile_dropWhile_of_imp (fun c => c != '=') ws ws_imp_ne_eq (rstripL e)
  rw [h1]
  have h2 : e.dropWhile (fun c => c != '=') =
      (rstripL e).dropWhile (fun c => c != '=') ++ s := by
    conv_lhs => rw [hdecomp]
    exact dropWhile_append_of_ne (fun c => c != '=') (rstripL e) s hfalse
  rw [h2]
  have hne : ((rstripL e).dropWhile (fun c => c != '=')).isEmpty = false := by
    rcases h : (rstripL e).dropWhile (fun c => c != '=') with _ | ⟨a, t⟩
    · exact absurd h (dropWhile_ne_nil_of_ne (fun c => c != '=') (rstripL e) hfalse)
    · rfl
  rw [List.tail_append, if_neg (by rw [hne]; exact Bool.false_ne_true)]
  exact (stripL_append_ws _ s hs).symm

/-- The code's per-entry processing equals the spec's wording of it. -/
theorem apply_entry_eq_spec (m : Table) (e : List Char) :
    apply_entry m e = apply_entry_spec m e := by
  unfold apply_entry apply_entry_spec
  by_cases he : '=' ∈ e
  · rw [if_pos ((mem_eq_stripL_iff e).mpr he), if_pos he]
    unfold splitOnceL
    rw [stripL_takeWhile_stripL e he, stripL_tail_dropWhile_stripL e he]
  · rw [if_neg (fun h => he ((mem_eq_stripL_iff e).mp h)), if_neg he]

/-- C3: `apply_overrides` behaves, for every configuration string, exactly
as the spec words it — split on commas, trim each side of each pair, skip
entries without `'='`, store with exact-name overwrite (the last conjunct
characterises the overwrite for every key) — and the two worked examples
hold for every starting table. -/
theorem claim_c3 (m : Table) (cfg : String) :
    apply_overrides m cfg = apply_overrides_spec m cfg ∧
    get_timezone_from_location (apply_overrides m "Vienna=Europe/Vienna") "Vienna" =
      .ok "Europe/Vienna" ∧
    dictGet (apply_overrides m "A=X/Y,B=P/Q") "A" = some "X/Y" ∧
    dictGet (apply_overrides m "A=X/Y,B=P/Q") "B" = some "P/Q" ∧
    (∀ k v k2, dictGet (dictInsert m k v) k2 =
      if k2 = k then some v else dictGet m k2) := by
  have h1 : apply_overrides m "Vienna=Europe/Vienna" =
      dictInsert m "Vienna" "Europe/Vienna" := rfl
  have h2 : apply_overrides m "A=X/Y,B=P/Q" =
      dictInsert (dictInsert m "A" "X/Y") "B" "P/Q" := rfl
  refine ⟨?_, ?_, ?_, ?_, fun k v k2 => dictGet_dictInsert m k v k2⟩
  · unfold apply_overrides apply_overrides_spec
    rw [funext (fun m2 => funext (fun e => apply_entry_eq_spec m2 e))]
  · rw [h1]
    exact resolve_eq_of_exact _ _ _ (by rw [dictGet_dictInsert, if_pos rfl])
  · rw [h2, dictGet_dictInsert, if_neg (by decide), dictGet_dictInsert, if_pos rfl]
  · rw [h2, dictGet_dictInsert, if_pos rfl]

/-- C10: an override entry whose name part is empty after trimming but
which contains `'='` inserts an entry keyed by the empty string, and the
empty name is among the (newline-joined) names that
`list_available_locations` outputs. -/
theorem claim_c10 (m : Table) :
    dictGet (apply_overrides m "=Europe/Vienna") "" = some "Europe/Vienna" ∧
    "" ∈ sortedNames (apply_overrides m "=Europe/Vienna") ∧
    list_available_text (apply_overrides m "=Europe/Vienna") =
      joinNewline (sortedNames (apply_overrides m "=Europe/Vienna")) ∧
    dictGet (apply_overrides m " = Europe/Vienna") "" = some "Europe/Vienna" ∧
    "" ∈ sortedNames (apply_overrides m " = Europe/Vienna") := by
  have h1 : apply_overrides m "=Europe/Vienna" = dictInsert m "" "Europe/Vienna" := rfl
  have h2 : apply_overrides m " = Europe/Vienna" = dictInsert m "" "Europe/Vienna" := rfl
  rw [h1, h2]
  have hmem : "" ∈ sortedNames (dictInsert m "" "Europe/Vienna") :=
    (List.perm_insertionSort (· ≤ ·)
      ((dictInsert m "" "Europe/Vienna").map Prod.fst)).mem_iff.mpr
      (mem_keys_dictInsert m "" "Europe/Vienna")
  exact ⟨by rw [dictGet_dictInsert, if_pos rfl], hmem, rfl,
    by rw [dictGet_dictInsert, if_pos rfl], hmem⟩

end DateMcp
